import Mathlib

/-!
Shallow embedding of the threaded-message store of this repository
(`backend/database.py` plus the request-validation layer of `backend/app.py`).

The store is a pair of SQLite tables

  threads  (id PK AUTOINCREMENT, title NOT NULL, created_at)
  messages (id PK AUTOINCREMENT, thread_id NOT NULL FK→threads ON DELETE CASCADE,
            parent_id FK→messages ON DELETE CASCADE, writer_name NOT NULL,
            content NOT NULL, layout_data, created_at)

with `PRAGMA foreign_keys = ON` set on every connection, so foreign keys are
enforced on insert and both `ON DELETE CASCADE` actions fire on delete.
The embedding models a database state as two lists of rows in insertion order
together with the two AUTOINCREMENT counters; timestamps are naturals supplied
by the caller (`CURRENT_TIMESTAMP` in the source).  SQL `DELETE` with its
engine-level cascade is modelled by an iterated closure computation: rows
matching the `WHERE` clause are deleted, and repeatedly every message whose
parent row was deleted is deleted too, until nothing changes.
-/

/-- Row of the `threads` table. -/
structure Thread where
  id : Nat
  title : String
  created_at : Nat
deriving Repr, DecidableEq

/-- Row of the `messages` table.  `parent_id = none` encodes SQL NULL, and
`layout_data = none` encodes an absent layout blob. -/
structure Message where
  id : Nat
  thread_id : Nat
  parent_id : Option Nat
  writer_name : String
  content : String
  layout_data : Option String
  created_at : Nat
deriving Repr, DecidableEq

/-- Whole database state: the two tables in row order plus the AUTOINCREMENT
counters that supply fresh primary keys. -/
structure DB where
  threads : List Thread
  messages : List Message
  next_thread_id : Nat
  next_message_id : Nat
deriving Repr, DecidableEq

/-- Typed failures surfaced by the store: SQLite raises IntegrityError when an
insert violates one of the two foreign keys of `messages`. -/
inductive DBError where
  | fkThread
  | fkParent
deriving Repr, DecidableEq

/-- Projection returned by `get_all_threads` (the SELECT with the
`COUNT(m.id)` aggregate from the LEFT JOIN). -/
structure ThreadSummary where
  id : Nat
  title : String
  created_at : Nat
  message_count : Nat
deriving Repr, DecidableEq

/-- Projection returned by `get_thread_with_messages`. -/
structure ThreadView where
  id : Nat
  title : String
  created_at : Nat
  messages : List Message
deriving Repr, DecidableEq

/-- Comparison used by `ORDER BY created_at` (ascending) on messages. -/
def msgLE (a b : Message) : Prop := a.created_at ≤ b.created_at

instance : DecidableRel msgLE := fun a b => Nat.decLe a.created_at b.created_at

instance : IsTotal Message msgLE := ⟨fun a b => Nat.le_total a.created_at b.created_at⟩

instance : IsTrans Message msgLE := ⟨fun _ _ _ hab hbc => Nat.le_trans hab hbc⟩

/-- Comparison used by `ORDER BY t.created_at DESC` on thread summaries. -/
def thGE (a b : ThreadSummary) : Prop := b.created_at ≤ a.created_at

instance : DecidableRel thGE := fun a b => Nat.decLe b.created_at a.created_at

instance : IsTotal ThreadSummary thGE := ⟨fun a b => (Nat.le_total b.created_at a.created_at)⟩

instance : IsTrans ThreadSummary thGE := ⟨fun _ _ _ hab hbc => Nat.le_trans hbc hab⟩

/-- Messages newly deleted by one round of the `parent_id ON DELETE CASCADE`
action: every row not yet deleted whose parent row is deleted. -/
def newlyDead (msgs : List Message) (dead : List Nat) : List Nat :=
  (msgs.filter (fun m => !decide (m.id ∈ dead) &&
    (match m.parent_id with
     | some p => decide (p ∈ dead)
     | none => false))).map (fun m => m.id)

/-- One round of the cascade: keep everything already deleted and add the
newly cascaded rows. -/
def cascadeStep (msgs : List Message) (dead : List Nat) : List Nat :=
  dead ++ newlyDead msgs dead

/-- Fuelled iteration of `cascadeStep`. -/
def cascadeIter (msgs : List Message) : Nat → List Nat → List Nat
  | 0, dead => dead
  | n + 1, dead => cascadeIter msgs n (cascadeStep msgs dead)

/-- Set of message ids deleted by the engine when the rows in `initial` are
deleted: the cascade closure.  `msgs.length` rounds always reach the fixpoint
(each productive round deletes at least one more row of `msgs`). -/
def cascade (msgs : List Message) (initial : List Nat) : List Nat :=
  cascadeIter msgs msgs.length initial

/-- Embeds `get_all_threads` of `backend/database.py`: one summary row per
thread (ids are a primary key, so `GROUP BY t.id` keeps one row per thread),
`message_count` the live count of its messages, ordered by
`created_at DESC`. -/
def get_all_threads (db : DB) : List ThreadSummary :=
  List.insertionSort thGE (db.threads.map (fun t =>
    { id := t.id, title := t.title, created_at := t.created_at,
      message_count := (db.messages.filter (fun m => decide (m.thread_id = t.id))).length }))

/-- Embeds `get_thread_with_messages`: `None` when the thread row is missing,
otherwise the thread's fields and its messages ordered by `created_at`. -/
def get_thread_with_messages (db : DB) (tid : Nat) : Option ThreadView :=
  match db.threads.find? (fun t => decide (t.id = tid)) with
  | none => none
  | some th => some
      { id := th.id, title := th.title, created_at := th.created_at,
        messages := List.insertionSort msgLE
          (db.messages.filter (fun m => decide (m.thread_id = tid))) }

/-- Embeds `create_thread`: inserts a row with a fresh id and the current
timestamp and returns the inserted row (the source returns the dict
`id`/`title` built from `cursor.lastrowid`). -/
def create_thread (db : DB) (title : String) (now : Nat) : DB × Thread :=
  let th : Thread := { id := db.next_thread_id, title := title, created_at := now }
  ({ db with threads := db.threads ++ [th], next_thread_id := db.next_thread_id + 1 }, th)

/-- Ids of the thread rows matched by `DELETE FROM threads WHERE id = ?`
(empty when the thread does not exist, so no cascade fires). -/
def deadThreadIds (db : DB) (tid : Nat) : List Nat :=
  (db.threads.filter (fun t => decide (t.id = tid))).map (fun t => t.id)

/-- Ids of the message rows deleted directly by the `thread_id ON DELETE
CASCADE` action when the matched thread rows are deleted. -/
def threadCascadeRoots (db : DB) (tid : Nat) : List Nat :=
  (db.messages.filter (fun m => decide (m.thread_id ∈ deadThreadIds db tid))).map (fun m => m.id)

/-- Ids of the message rows matched by `DELETE FROM messages WHERE id = ?`
(empty when the message does not exist, so no cascade fires). -/
def messageCascadeRoots (db : DB) (mid : Nat) : List Nat :=
  (db.messages.filter (fun m => decide (m.id = mid))).map (fun m => m.id)

/-- Embeds `delete_thread`: `DELETE FROM threads WHERE id = ?`.  Deleting the
thread row fires `thread_id ON DELETE CASCADE` on its messages, and deleting
those fires `parent_id ON DELETE CASCADE` transitively; when no thread row
matches, nothing is deleted and no cascade fires. -/
def delete_thread (db : DB) (tid : Nat) : DB :=
  { db with
    threads := db.threads.filter (fun t => !decide (t.id = tid)),
    messages := db.messages.filter (fun m =>
      !decide (m.id ∈ cascade db.messages (threadCascadeRoots db tid))) }

/-- Embeds `create_message`: with `PRAGMA foreign_keys = ON` the insert fails
with IntegrityError unless `thread_id` names an existing thread and
`parent_id`, when non-NULL, names an existing message (in any thread: the
schema has no same-thread constraint).  On success the row is appended with a
fresh id, NULL layout_data and the current timestamp and returned. -/
def create_message (db : DB) (tid : Nat) (pid : Option Nat) (writer content : String)
    (now : Nat) : Except DBError (DB × Message) :=
  if ∃ th ∈ db.threads, th.id = tid then
    match pid with
    | some p =>
        if ∃ m ∈ db.messages, m.id = p then
          let msg : Message :=
            { id := db.next_message_id, thread_id := tid, parent_id := some p,
              writer_name := writer, content := content, layout_data := none,
              created_at := now }
          .ok ({ db with
                 messages := db.messages ++ [msg],
                 next_message_id := db.next_message_id + 1 }, msg)
        else .error .fkParent
    | none =>
        let msg : Message :=
          { id := db.next_message_id, thread_id := tid, parent_id := none,
            writer_name := writer, content := content, layout_data := none,
            created_at := now }
        .ok ({ db with
               messages := db.messages ++ [msg],
               next_message_id := db.next_message_id + 1 }, msg)
  else .error .fkThread

/-- Embeds `delete_message`: `DELETE FROM messages WHERE id = ?` followed by
the engine-level `parent_id ON DELETE CASCADE`; when no row matches, nothing
is deleted and no cascade fires. -/
def delete_message (db : DB) (mid : Nat) : DB :=
  { db with messages := db.messages.filter (fun m =>
      !decide (m.id ∈ cascade db.messages (messageCascadeRoots db mid))) }

/-- Embeds `update_message_layout`: `UPDATE messages SET layout_data = ?
WHERE id = ?`. -/
def update_message_layout (db : DB) (mid : Nat) (layout : String) : DB :=
  { db with messages := db.messages.map (fun m =>
      if m.id = mid then { m with layout_data := some layout } else m) }

/-- One entry of the bulk update of `update_thread_layouts`:
`UPDATE messages SET layout_data = ? WHERE id = ? AND thread_id = ?`. -/
def apply_layout (tid : Nat) (msgs : List Message) (entry : Nat × String) : List Message :=
  msgs.map (fun m =>
    if m.id = entry.1 ∧ m.thread_id = tid then { m with layout_data := some entry.2 } else m)

/-- Embeds `update_thread_layouts`: applies each `(message_id, layout_data)`
entry of the dict in iteration order, each scoped by
`WHERE id = ? AND thread_id = ?`. -/
def update_thread_layouts (db : DB) (tid : Nat) (layouts : List (Nat × String)) : DB :=
  { db with messages := layouts.foldl (apply_layout tid) db.messages }

/-- Embeds `clear_thread_layouts`: `UPDATE messages SET layout_data = NULL
WHERE thread_id = ?`. -/
def clear_thread_layouts (db : DB) (tid : Nat) : DB :=
  { db with messages := db.messages.map (fun m =>
      if m.thread_id = tid then { m with layout_data := none } else m) }

/-!
Request-validation layer of `backend/app.py`.  A JSON body field is modelled
as `Option`: `none` when the key is absent from the request body (which is
also how a missing body reads, since `not data` and a missing key both yield
the same 400 response).  The second component of the result is the HTTP
status code: 201 on success, 400 on a failed presence check, 500 when the
uncaught sqlite3.IntegrityError escapes the handler.
-/

/-- Embeds the POST `/api/threads` handler: 400 when the body has no `title`
key, otherwise inserts unconditionally (the handler never checks that the
title is non-empty). -/
def app_create_thread (db : DB) (title : Option String) (now : Nat) : DB × Nat :=
  match title with
  | none => (db, 400)
  | some t => ((create_thread db t now).1, 201)

/-- Embeds the POST `/api/messages` handler: 400 when one of the keys
`thread_id`, `writer_name`, `content` is absent (`parent_id` is read with
`data.get`), otherwise calls the store; a foreign-key IntegrityError escapes
as a 500.  Values present but empty are passed through unchecked. -/
def app_create_message (db : DB) (tid : Option Nat) (pid : Option Nat)
    (writer content : Option String) (now : Nat) : DB × Nat :=
  match tid, writer, content with
  | some tid, some w, some c =>
      match create_message db tid pid w c now with
      | .ok (db2, _) => (db2, 201)
      | .error _ => (db, 500)
  | _, _, _ => (db, 400)

/-- Descendant relation of the message forest: `IsDesc msgs a x` holds when
the row with id `x` is `a` itself or is transitively reachable from id `a`
along `parent_id` links of rows of `msgs`. -/
inductive IsDesc (msgs : List Message) : Nat → Nat → Prop
  | refl (a : Nat) : IsDesc msgs a a
  | child {a b : Nat} (m : Message) (hm : m ∈ msgs) (hp : m.parent_id = some b)
      (hd : IsDesc msgs a b) : IsDesc msgs a m.id

/-- Agreement of two message rows on every column except `layout_data`. -/
def sameCore (a b : Message) : Prop :=
  a.id = b.id ∧ a.thread_id = b.thread_id ∧ a.parent_id = b.parent_id ∧
  a.writer_name = b.writer_name ∧ a.content = b.content ∧ a.created_at = b.created_at

/-- Invariant I1 of the spec: every stored message's thread_id names an
existing thread. -/
def threads_exist_for_messages (db : DB) : Prop :=
  ∀ m ∈ db.messages, ∃ th ∈ db.threads, th.id = m.thread_id

/-- Number of distinct ids of `msgs` not yet in `dead`; the termination
measure of the cascade iteration. -/
def remainingIds (msgs : List Message) (dead : List Nat) : Nat :=
  ((msgs.map (fun m => m.id)).dedup.filter (fun i => !decide (i ∈ dead))).length

/-!
Concrete database states used to instantiate the general theorems.  Message
literals list the columns in schema order:
id, thread_id, parent_id, writer_name, content, layout_data, created_at.
-/

/-- Fresh database as `init_db` leaves it (AUTOINCREMENT keys start at 1). -/
def dbEmpty : DB := { threads := [], messages := [], next_thread_id := 1, next_message_id := 1 }

/-- Store with one thread holding a single message. -/
def dbOne : DB :=
  { threads := [⟨1, "t", 0⟩],
    messages := [⟨1, 1, none, "w", "c", none, 1⟩],
    next_thread_id := 2, next_message_id := 2 }

/-- Store with one thread holding a four-message chain
1 ← 2 ← 3 ← 4 (a descendant tree of depth 3 under the root 1). -/
def dbChain : DB :=
  { threads := [⟨1, "t", 0⟩],
    messages := [⟨1, 1, none, "a", "r", none, 1⟩, ⟨2, 1, some 1, "a", "c", none, 2⟩,
                 ⟨3, 1, some 2, "a", "d", none, 3⟩, ⟨4, 1, some 3, "a", "e", none, 4⟩],
    next_thread_id := 2, next_message_id := 5 }

/-- Store reached from `dbEmpty` by creating two threads and one message in
the first thread; exercises the cross-thread-parent behaviour. -/
def dbCross : DB :=
  match create_message (create_thread (create_thread dbEmpty "a" 0).1 "b" 1).1 1 none "w" "c" 2 with
  | .ok r => r.1
  | .error _ => dbEmpty

/-!
Lemmas about the cascade closure.  The fuelled iteration reaches its fixpoint
within `msgs.length` rounds because every productive round deletes at least
one more distinct message id.
-/

theorem mem_cascadeStep_of_mem {msgs : List Message} {dead : List Nat} {a : Nat}
    (h : a ∈ dead) : a ∈ cascadeStep msgs dead :=
  List.mem_append_left _ h

theorem mem_cascadeIter_of_mem {msgs : List Message} {a : Nat} {n : Nat} {dead : List Nat}
    (h : a ∈ dead) : a ∈ cascadeIter msgs n dead := by
  induction n generalizing dead with
  | zero => exact h
  | succ n ih => exact ih (mem_cascadeStep_of_mem h)

theorem cascadeIter_of_fixed {msgs : List Message} {dead : List Nat} {n : Nat}
    (h : cascadeStep msgs dead = dead) : cascadeIter msgs n dead = dead := by
  induction n with
  | zero => rfl
  | succ n ih =>
      show cascadeIter msgs n (cascadeStep msgs dead) = dead
      rw [h]; exact ih

theorem length_filter_lt {α : Type} {p q : α → Bool} {l : List α} {x : α}
    (h : ∀ a ∈ l, p a = true → q a = true) (hx : x ∈ l) (hq : q x = true)
    (hp : p x = false) : (l.filter p).length < (l.filter q).length := by
  induction l with
  | nil => cases hx
  | cons y ys ih =>
      have hmono : (ys.filter p).length ≤ (ys.filter q).length := by
        rw [← List.countP_eq_length_filter, ← List.countP_eq_length_filter]
        exact List.countP_mono_left (fun a ha hpa => h a (List.mem_cons_of_mem y ha) hpa)
      rcases List.mem_cons.mp hx with rfl | hx2
      · rw [List.filter_cons_of_neg (by simp [hp]), List.filter_cons_of_pos hq]
        exact Nat.lt_succ_of_le hmono
      · have ih2 := ih (fun a ha hpa => h a (List.mem_cons_of_mem y ha) hpa) hx2
        by_cases hpy : p y = true
        · rw [List.filter_cons_of_pos hpy,
            List.filter_cons_of_pos (h y (List.mem_cons_self y ys) hpy)]
          exact Nat.succ_lt_succ ih2
        · rw [List.filter_cons_of_neg (by simpa using hpy)]
          by_cases hqy : q y = true
          · rw [List.filter_cons_of_pos hqy]
            exact Nat.lt_succ_of_lt ih2
          · rw [List.filter_cons_of_neg (by simpa using hqy)]
            exact ih2

theorem remainingIds_lt_of_newlyDead_ne_nil {msgs : List Message} {dead : List Nat}
    (h : newlyDead msgs dead ≠ []) :
    remainingIds msgs (cascadeStep msgs dead) < remainingIds msgs dead := by
  obtain ⟨x, hx⟩ : ∃ x, x ∈ newlyDead msgs dead := by
    cases hnd : newlyDead msgs dead with
    | nil => exact absurd hnd h
    | cons a l => exact ⟨a, hnd ▸ List.mem_cons_self a l⟩
  obtain ⟨m, hmF, hmx⟩ := List.mem_map.mp hx
  have hmem : m ∈ msgs := (List.mem_filter.mp hmF).1
  have hcond := (List.mem_filter.mp hmF).2
  have hnotdead : decide (m.id ∈ dead) = false := by
    rcases Bool.and_eq_true_iff.mp hcond with ⟨h1, _⟩
    simpa using h1
  have hxdead : x ∈ cascadeStep msgs dead := List.mem_append_right _ hx
  have hxid : x ∈ (msgs.map (fun m2 => m2.id)).dedup :=
    List.mem_dedup.mpr (List.mem_map.mpr ⟨m, hmem, hmx⟩)
  unfold remainingIds
  refine length_filter_lt (x := x) ?_ hxid ?_ ?_
  · intro a _ hpa
    simp only [Bool.not_eq_true', decide_eq_false_iff_not] at hpa ⊢
    exact fun ha => hpa (mem_cascadeStep_of_mem ha)
  · subst hmx
    simp only [Bool.not_eq_true', hnotdead]
  · simp [hxdead]

theorem remainingIds_le {msgs : List Message} {dead : List Nat} :
    remainingIds msgs dead ≤ msgs.length :=
  calc remainingIds msgs dead
      ≤ (msgs.map (fun m => m.id)).dedup.length := List.length_filter_le _ _
    _ ≤ (msgs.map (fun m => m.id)).length := (List.dedup_sublist _).length_le
    _ = msgs.length := List.length_map _ _

theorem cascadeIter_fixpoint (msgs : List Message) :
    ∀ (n : Nat) (dead : List Nat), remainingIds msgs dead ≤ n →
      cascadeStep msgs (cascadeIter msgs n dead) = cascadeIter msgs n dead := by
  intro n
  induction n with
  | zero =>
      intro dead h
      have hfe : (msgs.map (fun m => m.id)).dedup.filter (fun i => !decide (i ∈ dead)) = [] :=
        List.length_eq_zero.mp (Nat.le_zero.mp h)
      have hall : ∀ i ∈ (msgs.map (fun m => m.id)).dedup, i ∈ dead := by
        intro i hi
        have h2 := List.filter_eq_nil_iff.mp hfe i hi
        simpa using h2
      have hfilter : msgs.filter (fun m => !decide (m.id ∈ dead) &&
          (match m.parent_id with
           | some p => decide (p ∈ dead)
           | none => false)) = [] := by
        rw [List.filter_eq_nil_iff]
        intro m hm
        have hid : m.id ∈ dead :=
          hall m.id (List.mem_dedup.mpr (List.mem_map.mpr ⟨m, hm, rfl⟩))
        simp [hid]
      have hnd : newlyDead msgs dead = [] := by
        unfold newlyDead
        rw [hfilter]
        rfl
      show cascadeStep msgs dead = dead
      unfold cascadeStep
      rw [hnd, List.append_nil]
  | succ n ih =>
      intro dead h
      by_cases hnd : newlyDead msgs dead = []
      · have hstep : cascadeStep msgs dead = dead := by
          unfold cascadeStep
          rw [hnd, List.append_nil]
        have hiter : cascadeIter msgs (n + 1) dead = dead := cascadeIter_of_fixed hstep
        rw [hiter, hstep]
      · have hlt := remainingIds_lt_of_newlyDead_ne_nil hnd
        have hle : remainingIds msgs (cascadeStep msgs dead) ≤ n :=
          Nat.lt_succ_iff.mp (Nat.lt_of_lt_of_le hlt h)
        show cascadeStep msgs (cascadeIter msgs n (cascadeStep msgs dead)) =
          cascadeIter msgs n (cascadeStep msgs dead)
        exact ih (cascadeStep msgs dead) hle

theorem mem_cascade_of_mem_initial {msgs : List Message} {initial : List Nat} {a : Nat}
    (h : a ∈ initial) : a ∈ cascade msgs initial :=
  mem_cascadeIter_of_mem h

theorem cascade_closed {msgs : List Message} {initial : List Nat} {m : Message} {p : Nat}
    (hm : m ∈ msgs) (hp : m.parent_id = some p) (hpd : p ∈ cascade msgs initial) :
    m.id ∈ cascade msgs initial := by
  have hfix : cascadeStep msgs (cascade msgs initial) = cascade msgs initial :=
    cascadeIter_fixpoint msgs msgs.length initial remainingIds_le
  by_contra hnot
  have hmem : m.id ∈ newlyDead msgs (cascade msgs initial) := by
    unfold newlyDead
    refine List.mem_map.mpr ⟨m, List.mem_filter.mpr ⟨hm, ?_⟩, rfl⟩
    rw [hp]
    simp [hnot, hpd]
  have hnil : newlyDead msgs (cascade msgs initial) = [] := by
    have h2 := hfix
    unfold cascadeStep at h2
    exact List.append_right_eq_self.mp h2
  rw [hnil] at hmem
  cases hmem

theorem isDesc_mem_cascade {msgs : List Message} {initial : List Nat} {mid x : Nat}
    (hmid : mid ∈ initial) (hx : IsDesc msgs mid x) : x ∈ cascade msgs initial := by
  induction hx with
  | refl => exact mem_cascade_of_mem_initial hmid
  | child m hm hp _ ih => exact cascade_closed hm hp ih

theorem newlyDead_nil (msgs : List Message) : newlyDead msgs [] = [] := by
  unfold newlyDead
  have h : msgs.filter (fun m => !decide (m.id ∈ ([] : List Nat)) &&
      (match m.parent_id with
       | some p => decide (p ∈ ([] : List Nat))
       | none => false)) = [] := by
    rw [List.filter_eq_nil_iff]
    intro m _
    cases hp : m.parent_id <;> simp [hp]
  rw [h]
  rfl

theorem cascade_nil (msgs : List Message) : cascade msgs [] = [] :=
  cascadeIter_of_fixed (by unfold cascadeStep; rw [newlyDead_nil, List.append_nil])

theorem delete_message_messages (db : DB) (mid : Nat) :
    (delete_message db mid).messages = db.messages.filter (fun m =>
      !decide (m.id ∈ cascade db.messages (messageCascadeRoots db mid))) := rfl

theorem delete_thread_threads (db : DB) (tid : Nat) :
    (delete_thread db tid).threads = db.threads.filter (fun t => !decide (t.id = tid)) := rfl

theorem delete_thread_messages (db : DB) (tid : Nat) :
    (delete_thread db tid).messages = db.messages.filter (fun m =>
      !decide (m.id ∈ cascade db.messages (threadCascadeRoots db tid))) := rfl

/-- C1: for every message `mid` present in the store, `delete_message`
removes, in the one operation, every message transitively reachable from
`mid` along `parent_id` (including `mid` itself): no former descendant id is
present afterwards. -/
theorem deleteMessage_cascade (db : DB) (mid x : Nat)
    (hm : ∃ m0 ∈ db.messages, m0.id = mid) (hx : IsDesc db.messages mid x) :
    x ∉ (delete_message db mid).messages.map (fun m => m.id) := by
  obtain ⟨m0, hm0, hid0⟩ := hm
  have hinit : mid ∈ messageCascadeRoots db mid := by
    unfold messageCascadeRoots
    exact List.mem_map.mpr ⟨m0, List.mem_filter.mpr ⟨hm0, by simp [hid0]⟩, hid0⟩
  have hxdead : x ∈ cascade db.messages (messageCascadeRoots db mid) :=
    isDesc_mem_cascade hinit hx
  intro hmem
  rw [delete_message_messages] at hmem
  obtain ⟨msg, hmsg, hmsgx⟩ := List.mem_map.mp hmem
  have h2 := (List.mem_filter.mp hmsg).2
  rw [hmsgx] at h2
  simp only [Bool.not_eq_true', decide_eq_false_iff_not] at h2
  exact h2 hxdead

/-- Witness for C1 on the depth-3 chain of `dbChain`: after deleting the root
message 1, the great-grandchild id 4 is gone from the store. -/
theorem deleteMessage_cascade_witness :
    decide ((4 : Nat) ∈ (delete_message dbChain 1).messages.map (fun m => m.id)) = false :=
  decide_eq_false
    (deleteMessage_cascade dbChain 1 4 ⟨⟨1, 1, none, "a", "r", none, 1⟩, by decide, rfl⟩
      (.child ⟨4, 1, some 3, "a", "e", none, 4⟩ (by decide) rfl
        (.child ⟨3, 1, some 2, "a", "d", none, 3⟩ (by decide) rfl
          (.child ⟨2, 1, some 1, "a", "c", none, 2⟩ (by decide) rfl (.refl 1)))))

/-- C2: deleting an existing thread removes the thread row and every message
of the thread in the one operation: afterwards no thread row has that id and
no message row references it. -/
theorem deleteThread_cascade (db : DB) (tid : Nat)
    (ht : ∃ th ∈ db.threads, th.id = tid) :
    (∀ th2 ∈ (delete_thread db tid).threads, th2.id ≠ tid) ∧
    (∀ msg ∈ (delete_thread db tid).messages, msg.thread_id ≠ tid) := by
  constructor
  · intro th2 hth2
    rw [delete_thread_threads] at hth2
    have h2 := (List.mem_filter.mp hth2).2
    simpa using h2
  · intro msg hmsg hcontra
    obtain ⟨th, hth, hthid⟩ := ht
    rw [delete_thread_messages] at hmsg
    obtain ⟨hmem, hcond⟩ := List.mem_filter.mp hmsg
    have htid_dead : tid ∈ deadThreadIds db tid := by
      unfold deadThreadIds
      exact List.mem_map.mpr ⟨th, List.mem_filter.mpr ⟨hth, by simp [hthid]⟩, hthid⟩
    have hinit : msg.id ∈ threadCascadeRoots db tid := by
      unfold threadCascadeRoots
      exact List.mem_map.mpr ⟨msg, List.mem_filter.mpr ⟨hmem, by simp [hcontra, htid_dead]⟩, rfl⟩
    have hdead : msg.id ∈ cascade db.messages (threadCascadeRoots db tid) :=
      mem_cascade_of_mem_initial hinit
    simp [hdead] at hcond

/-- Witness for C2: deleting thread 1 of `dbChain` (which holds 4 messages)
leaves no message referencing thread 1 and no thread row with id 1. -/
theorem deleteThread_cascade_witness :
    ((delete_thread dbChain 1).messages.all (fun m => !decide (m.thread_id = 1)) = true) ∧
    ((delete_thread dbChain 1).threads.all (fun t => !decide (t.id = 1)) = true) := by
  have h := deleteThread_cascade dbChain 1 ⟨⟨1, "t", 0⟩, by decide, rfl⟩
  constructor
  · rw [List.all_eq_true]
    intro m hm
    simpa using h.2 m hm
  · rw [List.all_eq_true]
    intro t htl
    simpa using h.1 t htl

/-- C7: deleting a nonexistent thread or message id is a no-op that leaves
the store unchanged, also when done twice in a row. -/
theorem delete_idempotent (db : DB) (tid mid : Nat)
    (ht : ∀ th ∈ db.threads, th.id ≠ tid) (hm : ∀ m ∈ db.messages, m.id ≠ mid) :
    delete_thread db tid = db ∧ delete_message db mid = db ∧
    delete_thread (delete_thread db tid) tid = db ∧
    delete_message (delete_message db mid) mid = db := by
  have hdt : delete_thread db tid = db := by
    have h1 : db.threads.filter (fun t => decide (t.id = tid)) = [] := by
      rw [List.filter_eq_nil_iff]
      intro t htl
      simp [ht t htl]
    have hroots : threadCascadeRoots db tid = [] := by
      unfold threadCascadeRoots deadThreadIds
      rw [h1, List.map_nil]
      have h2 : db.messages.filter (fun m => decide (m.thread_id ∈ ([] : List Nat))) = [] := by
        rw [List.filter_eq_nil_iff]
        intro m _
        simp
      rw [h2, List.map_nil]
    have h3 : db.threads.filter (fun t => !decide (t.id = tid)) = db.threads :=
      List.filter_eq_self.mpr (fun t htl => by simp [ht t htl])
    have h4 : db.messages.filter (fun m =>
        !decide (m.id ∈ cascade db.messages (threadCascadeRoots db tid))) = db.messages := by
      rw [hroots, cascade_nil]
      exact List.filter_eq_self.mpr (fun m _ => by simp)
    unfold delete_thread
    rw [h3, h4]
  have hdm : delete_message db mid = db := by
    have hroots : messageCascadeRoots db mid = [] := by
      unfold messageCascadeRoots
      have h1 : db.messages.filter (fun m => decide (m.id = mid)) = [] := by
        rw [List.filter_eq_nil_iff]
        intro m hml
        simp [hm m hml]
      rw [h1, List.map_nil]
    have h4 : db.messages.filter (fun m =>
        !decide (m.id ∈ cascade db.messages (messageCascadeRoots db mid))) = db.messages := by
      rw [hroots, cascade_nil]
      exact List.filter_eq_self.mpr (fun m _ => by simp)
    unfold delete_message
    rw [h4]
  refine ⟨hdt, hdm, ?_, ?_⟩
  · rw [hdt, hdt]
  · rw [hdm, hdm]

/-- Witness for C7: id 9 names neither a thread nor a message of `dbChain`,
and both deletes leave the store untouched. -/
theorem delete_idempotent_witness :
    delete_thread dbChain 9 = dbChain ∧ delete_message dbChain 9 = dbChain := by
  have h := delete_idempotent dbChain 9 9 (by decide) (by decide)
  exact ⟨h.1, h.2.1⟩

/-- C8: the thread foreign key of `create_message`.  First part: when the
threadId names no existing thread, the insert fails with the IntegrityError
(and, the operation returning no new state, no row is inserted).  Second
part: invariant I1 is preserved: when every stored message references an
existing thread, any state produced by a successful `create_message` does
too. -/
theorem create_message_thread_fk (db : DB) (tid : Nat) (pid : Option Nat)
    (w c : String) (now : Nat) :
    ((∀ th ∈ db.threads, th.id ≠ tid) →
      create_message db tid pid w c now = .error .fkThread) ∧
    (threads_exist_for_messages db →
      ∀ db2 msg, create_message db tid pid w c now = .ok (db2, msg) →
        threads_exist_for_messages db2) := by
  constructor
  · intro ht
    unfold create_message
    rw [if_neg]
    rintro ⟨th, hth, hid⟩
    exact ht th hth hid
  · intro hwf db2 msg hok
    unfold create_message at hok
    by_cases hth : ∃ th ∈ db.threads, th.id = tid
    · rw [if_pos hth] at hok
      obtain ⟨th, hthm, hthid⟩ := hth
      cases pid with
      | none =>
          dsimp only at hok
          rw [Except.ok.injEq, Prod.mk.injEq] at hok
          obtain ⟨h1, _⟩ := hok
          subst h1
          intro m hm2
          rcases List.mem_append.mp hm2 with hold | hnew
          · obtain ⟨th2, hth2, hid2⟩ := hwf m hold
            exact ⟨th2, hth2, hid2⟩
          · rcases List.mem_singleton.mp hnew with rfl
            exact ⟨th, hthm, hthid⟩
      | some p =>
          dsimp only at hok
          by_cases hp : ∃ m0 ∈ db.messages, m0.id = p
          · rw [if_pos hp, Except.ok.injEq, Prod.mk.injEq] at hok
            obtain ⟨h1, _⟩ := hok
            subst h1
            intro m hm2
            rcases List.mem_append.mp hm2 with hold | hnew
            · obtain ⟨th2, hth2, hid2⟩ := hwf m hold
              exact ⟨th2, hth2, hid2⟩
            · rcases List.mem_singleton.mp hnew with rfl
              exact ⟨th, hthm, hthid⟩
          · rw [if_neg hp] at hok
            cases hok
    · rw [if_neg hth] at hok
      cases hok

/-- Witness for C8: no thread of `dbChain` has id 5, and the insert fails
with the foreign-key error. -/
theorem create_message_thread_fk_witness :
    create_message dbChain 5 none "w" "c" 9 = .error .fkThread :=
  (create_message_thread_fk dbChain 5 none "w" "c" 9).1 (by decide)

/-- Counterexample to C3: the handlers only check that the JSON keys are
present, never that the values are non-empty.  A request with an empty title
is accepted with 201 and inserts a thread row with title `""`, and a request
with empty writer_name and content is accepted with 201 and inserts a
message row — contradicting the claim that such requests fail with
ValidationError and insert no row. -/
theorem create_accepts_empty_values :
    (app_create_thread dbEmpty (some "") 0).2 = 201 ∧
    (app_create_thread dbEmpty (some "") 0).1.threads =
      [{ id := 1, title := "", created_at := 0 }] ∧
    (app_create_message dbOne (some 1) none (some "") (some "") 2).2 = 201 ∧
    (app_create_message dbOne (some 1) none (some "") (some "") 2).1.messages.length = 2 := by
  refine ⟨rfl, rfl, ?_, ?_⟩ <;> decide

/-- C3 as amended: the handlers fail with the 400 ValidationError exactly for
missing keys — `app_create_thread` when the title key is absent, and
`app_create_message` when one of thread_id, writer_name, content is absent —
and in every such case the store is unchanged.  Empty-string values are not
rejected. -/
theorem create_requires_present_fields (db : DB) (now : Nat) (tid : Option Nat)
    (pid : Option Nat) (w c : Option String)
    (h : tid = none ∨ w = none ∨ c = none) :
    app_create_thread db none now = (db, 400) ∧
    app_create_message db tid pid w c now = (db, 400) := by
  refine ⟨rfl, ?_⟩
  rcases h with h | h | h
  · subst h
    cases w <;> cases c <;> rfl
  · subst h
    cases tid <;> cases c <;> rfl
  · subst h
    cases tid <;> cases w <;> rfl

/-- Witness for the amended C3: a message request missing its thread_id key
is rejected with 400 and the store is unchanged. -/
theorem create_requires_present_fields_witness :
    app_create_message dbEmpty none none none (some "c") 0 = (dbEmpty, 400) :=
  (create_requires_present_fields dbEmpty 0 none none none (some "c") (Or.inl rfl)).2

/-- Counterexample to C4: `dbCross` is reached from the empty store by
creating threads 1 and 2 and message 1 inside thread 1; `create_message`
then accepts a request with threadId 2 and parentId 1, inserting a message
of thread 2 whose parent lives in thread 1 — the store neither rejects nor
ignores the cross-thread parent, so the same-thread-parent invariant fails
in a reachable state. -/
theorem create_message_accepts_cross_thread_parent :
    dbCross.messages.map (fun m => (m.id, m.thread_id)) = [(1, 1)] ∧
    (create_message dbCross 2 (some 1) "x" "y" 3).toOption.map
      (fun r => (r.2.thread_id, r.2.parent_id)) = some (2, some 1) ∧
    (create_message dbCross 2 (some 1) "x" "y" 3).toOption.map
      (fun r => r.1.messages.map (fun m => (m.thread_id, m.parent_id))) =
      some [(1, none), (2, some 1)] := by
  refine ⟨?_, ?_, ?_⟩ <;> decide

/-- C4 as amended: `create_message` only requires the parent to exist
somewhere in the messages table; a parentId naming a message of any thread —
the same or a different one — is accepted, and the created message stores
that parent and the supplied threadId unchanged. -/
theorem create_message_parent_any_thread (db : DB) (tid p : Nat) (w c : String) (now : Nat)
    (ht : ∃ th ∈ db.threads, th.id = tid)
    (hp : ∃ m0 ∈ db.messages, m0.id = p) :
    ∃ r, create_message db tid (some p) w c now = .ok r ∧
      r.2.parent_id = some p ∧ r.2.thread_id = tid := by
  unfold create_message
  rw [if_pos ht]
  dsimp only
  rw [if_pos hp]
  exact ⟨_, rfl, rfl, rfl⟩

/-- Witness for the amended C4, at the cross-thread input of the
counterexample: thread 2 exists and message 1 exists (in thread 1), so the
insert succeeds. -/
theorem create_message_parent_any_thread_witness :
    (create_message dbCross 2 (some 1) "w" "c" 4).isOk = true := by
  obtain ⟨r, hr, -, -⟩ :=
    create_message_parent_any_thread dbCross 2 1 "w" "c" 4 (by decide) (by decide)
  rw [hr]
  rfl

theorem update_thread_layouts_messages (db : DB) (tid : Nat) (layouts : List (Nat × String)) :
    (update_thread_layouts db tid layouts).messages =
      layouts.foldl (apply_layout tid) db.messages := rfl

theorem clear_thread_layouts_messages (db : DB) (tid : Nat) :
    (clear_thread_layouts db tid).messages = db.messages.map (fun m =>
      if m.thread_id = tid then { m with layout_data := none } else m) := rfl

theorem update_single_messages (db : DB) (tid msgid : Nat) (b : String) :
    (update_thread_layouts db tid [(msgid, b)]).messages =
      apply_layout tid db.messages (msgid, b) := rfl

theorem apply_layout_frame_out {tid : Nat} {msgs : List Message} {entry : Nat × String}
    {i : Nat} {b : Message} (hb : msgs[i]? = some b) (hth : b.thread_id ≠ tid) :
    (apply_layout tid msgs entry)[i]? = some b := by
  unfold apply_layout
  rw [List.getElem?_map, hb]
  show some (if b.id = entry.1 ∧ b.thread_id = tid
    then { b with layout_data := some entry.2 } else b) = some b
  rw [if_neg]
  rintro ⟨-, h2⟩
  exact hth h2

theorem update_layouts_frame_out {tid : Nat} {layouts : List (Nat × String)}
    {msgs : List Message} {i : Nat} {b : Message}
    (hb : msgs[i]? = some b) (hth : b.thread_id ≠ tid) :
    (layouts.foldl (apply_layout tid) msgs)[i]? = some b := by
  induction layouts generalizing msgs with
  | nil => exact hb
  | cons e rest ih => exact ih (apply_layout_frame_out hb hth)

theorem sameCore_refl (a : Message) : sameCore a a := ⟨rfl, rfl, rfl, rfl, rfl, rfl⟩

theorem sameCore_trans {a b c : Message} (h1 : sameCore a b) (h2 : sameCore b c) :
    sameCore a c := by
  obtain ⟨e1, e2, e3, e4, e5, e6⟩ := h1
  obtain ⟨f1, f2, f3, f4, f5, f6⟩ := h2
  exact ⟨e1.trans f1, e2.trans f2, e3.trans f3, e4.trans f4, e5.trans f5, e6.trans f6⟩

theorem apply_layout_core {tid : Nat} {msgs : List Message} {entry : Nat × String}
    {i : Nat} {a b : Message} (ha : (apply_layout tid msgs entry)[i]? = some a)
    (hb : msgs[i]? = some b) : sameCore a b := by
  unfold apply_layout at ha
  rw [List.getElem?_map, hb] at ha
  have ha2 : (if b.id = entry.1 ∧ b.thread_id = tid
      then { b with layout_data := some entry.2 } else b) = a := Option.some.inj ha
  by_cases hc : b.id = entry.1 ∧ b.thread_id = tid
  · rw [if_pos hc] at ha2
    rw [← ha2]
    exact ⟨rfl, rfl, rfl, rfl, rfl, rfl⟩
  · rw [if_neg hc] at ha2
    rw [← ha2]
    exact sameCore_refl b

theorem update_layouts_core {tid : Nat} {layouts : List (Nat × String)}
    {msgs : List Message} {i : Nat} {a b : Message}
    (ha : (layouts.foldl (apply_layout tid) msgs)[i]? = some a)
    (hb : msgs[i]? = some b) : sameCore a b := by
  induction layouts generalizing msgs b with
  | nil =>
      rw [List.foldl_nil, hb] at ha
      have h := Option.some.inj ha
      subst h
      exact sameCore_refl b
  | cons e rest ih =>
      have hmid : (apply_layout tid msgs e)[i]? = some (if b.id = e.1 ∧ b.thread_id = tid
          then { b with layout_data := some e.2 } else b) := by
        unfold apply_layout
        rw [List.getElem?_map, hb]
        rfl
      exact sameCore_trans (ih ha hmid) (apply_layout_core hmid hb)

theorem apply_layout_length (tid : Nat) (msgs : List Message) (entry : Nat × String) :
    (apply_layout tid msgs entry).length = msgs.length := by
  unfold apply_layout
  exact List.length_map _ _

theorem foldl_apply_layout_length (tid : Nat) (layouts : List (Nat × String)) :
    ∀ msgs : List Message, (layouts.foldl (apply_layout tid) msgs).length = msgs.length := by
  induction layouts with
  | nil => intro msgs; rfl
  | cons e rest ih =>
      intro msgs
      rw [List.foldl_cons, ih (apply_layout tid msgs e), apply_layout_length]

theorem clear_thread_layouts_core {db : DB} {tid : Nat} {i : Nat} {a b : Message}
    (ha : (clear_thread_layouts db tid).messages[i]? = some a)
    (hb : db.messages[i]? = some b) : sameCore a b := by
  rw [clear_thread_layouts_messages, List.getElem?_map, hb] at ha
  have ha2 : (if b.thread_id = tid then { b with layout_data := none } else b) = a :=
    Option.some.inj ha
  by_cases hc : b.thread_id = tid
  · rw [if_pos hc] at ha2
    rw [← ha2]
    exact ⟨rfl, rfl, rfl, rfl, rfl, rfl⟩
  · rw [if_neg hc] at ha2
    rw [← ha2]
    exact sameCore_refl b

/-- C6: the scoping filter of `update_thread_layouts`.  The threads table is
untouched, and every message row whose thread_id differs from the supplied
threadId is left exactly as it was, whatever entries the layouts dict holds
(entries naming messages of other threads are silently skipped). -/
theorem update_thread_layouts_scoped (db : DB) (tid : Nat) (layouts : List (Nat × String)) :
    (update_thread_layouts db tid layouts).threads = db.threads ∧
    ∀ (i : Nat) (b : Message), db.messages[i]? = some b → b.thread_id ≠ tid →
      (update_thread_layouts db tid layouts).messages[i]? = some b := by
  refine ⟨rfl, fun i b hb hth => ?_⟩
  rw [update_thread_layouts_messages]
  exact update_layouts_frame_out hb hth

/-- Witness for C6: updating layouts of thread 2 with an entry for message 1
(which lives in thread 1) leaves message 1 unchanged. -/
theorem update_thread_layouts_scoped_witness :
    (update_thread_layouts dbOne 2 [(1, "x")]).messages[0]? =
      some ⟨1, 1, none, "w", "c", none, 1⟩ :=
  (update_thread_layouts_scoped dbOne 2 [(1, "x")]).2 0
    ⟨1, 1, none, "w", "c", none, 1⟩ rfl (by decide)

/-- C10: frame property of the layout sublayer.  Both layout operations keep
the threads table, create or delete no message (lengths are unchanged, rows
stay at their positions), change at most `layout_data` on any row
(`sameCore`), and `clear_thread_layouts` leaves rows of other threads
entirely unchanged. -/
theorem layout_ops_frame (db : DB) (tid : Nat) (layouts : List (Nat × String)) :
    (update_thread_layouts db tid layouts).threads = db.threads ∧
    (clear_thread_layouts db tid).threads = db.threads ∧
    (update_thread_layouts db tid layouts).messages.length = db.messages.length ∧
    (clear_thread_layouts db tid).messages.length = db.messages.length ∧
    (∀ (i : Nat) (a b : Message), (update_thread_layouts db tid layouts).messages[i]? = some a →
      db.messages[i]? = some b → sameCore a b) ∧
    (∀ (i : Nat) (a b : Message), (clear_thread_layouts db tid).messages[i]? = some a →
      db.messages[i]? = some b → sameCore a b) ∧
    (∀ (i : Nat) (b : Message), db.messages[i]? = some b → b.thread_id ≠ tid →
      (clear_thread_layouts db tid).messages[i]? = some b) := by
  refine ⟨rfl, rfl, foldl_apply_layout_length tid layouts db.messages, ?_, ?_, ?_, ?_⟩
  · rw [clear_thread_layouts_messages]
    exact List.length_map _ _
  · intro i a b ha hb
    rw [update_thread_layouts_messages] at ha
    exact update_layouts_core ha hb
  · intro i a b ha hb
    exact clear_thread_layouts_core ha hb
  · intro i b hb hth
    rw [clear_thread_layouts_messages, List.getElem?_map, hb]
    show some (if b.thread_id = tid then { b with layout_data := none } else b) = some b
    rw [if_neg hth]

/-- Witness for C10: updating message 1 of `dbOne` only changes its
layout_data column. -/
theorem layout_ops_frame_witness :
    sameCore ⟨1, 1, none, "w", "c", some "x", 1⟩ ⟨1, 1, none, "w", "c", none, 1⟩ :=
  (layout_ops_frame dbOne 1 [(1, "x")]).2.2.2.2.1 0
    ⟨1, 1, none, "w", "c", some "x", 1⟩ ⟨1, 1, none, "w", "c", none, 1⟩ rfl rfl

theorem get_thread_with_messages_some (db : DB) (t : Nat)
    (ht : ∃ th ∈ db.threads, th.id = t) :
    ∃ th0, db.threads.find? (fun th => decide (th.id = t)) = some th0 ∧
      get_thread_with_messages db t = some
        { id := th0.id, title := th0.title, created_at := th0.created_at,
          messages := List.insertionSort msgLE
            (db.messages.filter (fun m => decide (m.thread_id = t))) } := by
  obtain ⟨th0, hfind⟩ : ∃ th0, db.threads.find? (fun th => decide (th.id = t)) = some th0 := by
    have h1 : (db.threads.find? (fun th => decide (th.id = t))).isSome := by
      rw [List.find?_isSome]
      obtain ⟨th, hth, hid⟩ := ht
      exact ⟨th, hth, by simp [hid]⟩
    exact Option.isSome_iff_exists.mp h1
  refine ⟨th0, hfind, ?_⟩
  unfold get_thread_with_messages
  rw [hfind]

/-- C5: layout round-trip.  For a thread `t` containing a message with id
`m`, bulk-updating the layout of `m` to `b` and then fetching the thread
shows a message with id `m`, and every returned message with id `m` carries
layout_data `b`; clearing the thread's layouts afterwards makes every message
of the fetched thread show layout_data absent. -/
theorem layout_roundtrip (db : DB) (t m : Nat) (b : String)
    (ht : ∃ th ∈ db.threads, th.id = t)
    (hm : ∃ msg ∈ db.messages, msg.id = m ∧ msg.thread_id = t) :
    (∃ view, get_thread_with_messages (update_thread_layouts db t [(m, b)]) t = some view ∧
      (∃ msg2 ∈ view.messages, msg2.id = m) ∧
      (∀ msg2 ∈ view.messages, msg2.id = m → msg2.layout_data = some b)) ∧
    (∃ view2, get_thread_with_messages
        (clear_thread_layouts (update_thread_layouts db t [(m, b)]) t) t = some view2 ∧
      ∀ msg2 ∈ view2.messages, msg2.layout_data = none) := by
  constructor
  · obtain ⟨th0, -, hview⟩ :=
      get_thread_with_messages_some (update_thread_layouts db t [(m, b)]) t ht
    refine ⟨_, hview, ?_, ?_⟩
    · obtain ⟨msg0, hmsg0, hid0, hth0⟩ := hm
      refine ⟨{ msg0 with layout_data := some b }, ?_, hid0⟩
      show { msg0 with layout_data := some b } ∈ List.insertionSort msgLE
        ((update_thread_layouts db t [(m, b)]).messages.filter
          (fun m2 => decide (m2.thread_id = t)))
      rw [List.mem_insertionSort]
      refine List.mem_filter.mpr ⟨?_, by simp [hth0]⟩
      rw [update_single_messages]
      unfold apply_layout
      refine List.mem_map.mpr ⟨msg0, hmsg0, ?_⟩
      rw [if_pos ⟨hid0, hth0⟩]
    · intro msg2 hmem hid2
      have hmem2 : msg2 ∈ List.insertionSort msgLE
          ((update_thread_layouts db t [(m, b)]).messages.filter
            (fun m2 => decide (m2.thread_id = t))) := hmem
      rw [List.mem_insertionSort] at hmem2
      obtain ⟨hmem3, hthr⟩ := List.mem_filter.mp hmem2
      rw [update_single_messages] at hmem3
      unfold apply_layout at hmem3
      obtain ⟨orig, horig, heq⟩ := List.mem_map.mp hmem3
      by_cases hc : orig.id = m ∧ orig.thread_id = t
      · rw [if_pos hc] at heq
        rw [← heq]
      · rw [if_neg hc] at heq
        subst heq
        exact absurd ⟨hid2, of_decide_eq_true hthr⟩ hc
  · obtain ⟨th0, -, hview⟩ := get_thread_with_messages_some
      (clear_thread_layouts (update_thread_layouts db t [(m, b)]) t) t ht
    refine ⟨_, hview, ?_⟩
    intro msg2 hmem
    have hmem2 : msg2 ∈ List.insertionSort msgLE
        ((clear_thread_layouts (update_thread_layouts db t [(m, b)]) t).messages.filter
          (fun m2 => decide (m2.thread_id = t))) := hmem
    rw [List.mem_insertionSort] at hmem2
    obtain ⟨hmem3, hthr⟩ := List.mem_filter.mp hmem2
    rw [clear_thread_layouts_messages] at hmem3
    obtain ⟨orig, horig, heq⟩ := List.mem_map.mp hmem3
    by_cases hc : orig.thread_id = t
    · rw [if_pos hc] at heq
      rw [← heq]
    · rw [if_neg hc] at heq
      subst heq
      exact absurd (of_decide_eq_true hthr) hc

/-- Witness for C5: the round-trip succeeds on `dbOne` (thread 1, message 1,
blob "b"): the fetch after the update returns a thread view. -/
theorem layout_roundtrip_witness :
    (get_thread_with_messages (update_thread_layouts dbOne 1 [(1, "b")]) 1).isSome = true := by
  obtain ⟨view, hview, -, -⟩ := (layout_roundtrip dbOne 1 1 "b" (by decide)
    ⟨⟨1, 1, none, "w", "c", none, 1⟩, by decide, rfl, rfl⟩).1
  rw [hview]
  rfl

/-- C9: `get_all_threads` returns threads with `created_at` descending
(newest first), and the messages of `get_thread_with_messages` come with
`created_at` ascending (oldest first). -/
theorem query_ordering (db : DB) (tid : Nat) :
    List.Pairwise (fun a b : ThreadSummary => b.created_at ≤ a.created_at)
      (get_all_threads db) ∧
    ∀ view, get_thread_with_messages db tid = some view →
      List.Pairwise (fun a b : Message => a.created_at ≤ b.created_at) view.messages := by
  constructor
  · exact List.sorted_insertionSort thGE (db.threads.map (fun t =>
      ({ id := t.id, title := t.title, created_at := t.created_at,
         message_count :=
           (db.messages.filter (fun m => decide (m.thread_id = t.id))).length } : ThreadSummary)))
  · intro view hv
    unfold get_thread_with_messages at hv
    cases hfind : db.threads.find? (fun t => decide (t.id = tid)) with
    | none =>
        rw [hfind] at hv
        cases hv
    | some th =>
        rw [hfind] at hv
        have hv2 := Option.some.inj hv
        rw [← hv2]
        exact List.sorted_insertionSort msgLE _

/-- Witness for C9: the fetched view of thread 1 of `dbOne` has its messages
sorted by created_at ascending. -/
theorem query_ordering_witness :
    (get_thread_with_messages dbOne 1).elim False
      (fun v => List.Pairwise (fun a b : Message => a.created_at ≤ b.created_at) v.messages) :=
  (query_ordering dbOne 1).2
    { id := 1, title := "t", created_at := 0,
      messages := [⟨1, 1, none, "w", "c", none, 1⟩] } rfl
